import Mathlib

/-!
Shallow embedding of the kiam policy evaluation engine
(`pkg/server/policy.go`) and proofs about it.

Go functions returning `(value, error)` pairs are embedded as
`Option Decision × Option Err` pairs, mirroring each return site of the
source (`return nil, err` becomes `(none, some err)`, `return decision, nil`
becomes `(some decision, none)`).  External collaborators (the ARN resolver
and the namespace finder, consumed through narrow interfaces) are embedded
as functions returning `Except Err _`, following their documented contract
of one value or one error.

Go's `regexp` package (RE2) is modelled by a small executable engine:
a parser covering the subset of RE2 syntax used by permission expressions
(literal characters, escapes, `.` `^` `$` `|` `*` `+` `?` and groups;
character classes and counted repetition are rejected as parse errors) and
a positional matcher.  As in RE2, alternation `|` has the lowest
precedence, `^` matches only at the start of the text and `$` only at its
end, and `MatchString` reports whether a match exists anywhere in the text.
-/

namespace Kiam

/-- Abstract syntax of the modelled RE2 subset.  `bol` is the `^` assertion,
`eol` the `$` assertion; `+` and `?` are desugared at parse time. -/
inductive Regex where
  | eps
  | chr (c : Char)
  | dot
  | bol
  | eol
  | cat (a b : Regex)
  | alt (a b : Regex)
  | star (a : Regex)
deriving DecidableEq, Repr

/-- End positions reachable from position `i` by iterating the step function
`f` (the end positions of one match of the starred regex) zero or more
times, only ever through strictly increasing positions.  Iterations that
consume no character never change the reachable set, so fuel equal to the
text length suffices. -/
def starEnds (f : Nat → List Nat) : Nat → Nat → List Nat
  | 0, i => [i]
  | n + 1, i =>
      (i :: (((f i).filter (fun j => i < j)).map (fun j => starEnds f n j)).flatten).dedup

/-- End positions of a match of `re` beginning at position `i` of the text
`s`.  Positions index into the whole text, so the assertions `bol` and
`eol` can require the very start and the very end of it. -/
def matchEnds (s : List Char) : Regex → Nat → List Nat
  | .eps, i => [i]
  | .chr c, i =>
      if h : i < s.length then
        (if s.get ⟨i, h⟩ = c then [i + 1] else [])
      else []
  | .dot, i => if i < s.length then [i + 1] else []
  | .bol, i => if i = 0 then [i] else []
  | .eol, i => if i = s.length then [i] else []
  | .cat a b, i => (((matchEnds s a i).map (fun j => matchEnds s b j)).flatten).dedup
  | .alt a b, i => ((matchEnds s a i) ++ (matchEnds s b i)).dedup
  | .star a, i => starEnds (fun j => matchEnds s a j) (s.length + 1) i

/-- Whether `re` matches somewhere in `s`: RE2's `MatchString` reports the
existence of a match starting at any position of the text. -/
def Regex.MatchString (re : Regex) (s : String) : Bool :=
  (List.range (s.toList.length + 1)).any (fun i => !(List.isEmpty (matchEnds s.toList re i)))

/-- Whether `c` is one of the postfix repetition operators. -/
def postOp (c : Char) : Bool := c = '*' || c = '+' || c = '?'

/-- Meaning of a postfix repetition operator: `+` and `?` desugar into
concatenation with a star and alternation with the empty regex. -/
def applyPost (r : Regex) (c : Char) : Regex :=
  if c = '*' then .star r
  else if c = '+' then .cat r (.star r)
  else .alt r .eps

mutual

/-- Parse an alternation (lowest precedence, as in RE2). -/
def parseAlt : Nat → List Char → Option (Regex × List Char)
  | 0, _ => none
  | fuel + 1, cs =>
    match parseCat fuel cs with
    | none => none
    | some (r, rest) =>
      match rest with
      | '|' :: rest2 =>
        match parseAlt fuel rest2 with
        | none => none
        | some (r2, rest3) => some (.alt r r2, rest3)
      | _ => some (r, rest)

/-- Parse a concatenation: a sequence of repeated atoms, stopping at `|`,
at `)` or at the end of the input. -/
def parseCat : Nat → List Char → Option (Regex × List Char)
  | 0, _ => none
  | fuel + 1, cs =>
    match cs with
    | [] => some (.eps, [])
    | c :: _ =>
      if c = '|' || c = ')' then some (.eps, cs)
      else
        match parseRep fuel cs with
        | none => none
        | some (r, rest) =>
          match parseCat fuel rest with
          | none => none
          | some (r2, rest2) => some (.cat r r2, rest2)

/-- Parse one atom with an optional postfix repetition operator.  As in
RE2, one operator may carry a non-greedy `?` (same matched language), and a
further stacked repetition operator is a parse error. -/
def parseRep : Nat → List Char → Option (Regex × List Char)
  | 0, _ => none
  | fuel + 1, cs =>
    match parseAtom fuel cs with
    | none => none
    | some (r, rest) =>
      match rest with
      | [] => some (r, [])
      | c :: rest2 =>
        if postOp c then
          match rest2 with
          | '?' :: rest3 =>
            match rest3 with
            | d :: _ => if postOp d then none else some (applyPost r c, rest3)
            | [] => some (applyPost r c, rest3)
          | d :: _ => if postOp d then none else some (applyPost r c, rest2)
          | [] => some (applyPost r c, rest2)
        else some (r, rest)

/-- Parse one atom: a group, `.`, `^`, `$`, an escaped punctuation
character, or a literal character.  Character classes (`[`), counted
repetition (`{`), class escapes such as a backslash before a letter, a
repetition operator with no operand, and an unmatched `(` are parse
errors, as in RE2 or as unsupported subset. -/
def parseAtom : Nat → List Char → Option (Regex × List Char)
  | 0, _ => none
  | fuel + 1, cs =>
    match cs with
    | [] => none
    | c :: rest =>
      if c = '(' then
        match parseAlt fuel rest with
        | some (r, ')' :: rest2) => some (r, rest2)
        | _ => none
      else if c = '.' then some (.dot, rest)
      else if c = '^' then some (.bol, rest)
      else if c = '$' then some (.eol, rest)
      else if c = '\\' then
        match rest with
        | d :: rest2 => if d.isAlphanum then none else some (.chr d, rest2)
        | [] => none
      else if c = '|' || c = ')' || c = '*' || c = '+' || c = '?' || c = '[' || c = '{' then
        none
      else some (.chr c, rest)

end

/-- Result of `regexp.Compile`: the parsed regex, or an error for input the
modelled subset rejects.  The whole input must be consumed: a leftover
`)` is an unmatched group, an error in RE2 too. -/
def regexpCompile (s : String) : Except String Regex :=
  match parseAlt (4 * s.toList.length + 8) s.toList with
  | some (r, []) => .ok r
  | _ => .error ("error parsing regexp: " ++ s)

/-- Go errors are embedded as their message strings. -/
abbrev Err := String

/-- Canonical identity produced by the external ARN resolver
(`sts.Identity`): a name and a fully qualified identifier. -/
structure Identity where
  Name : String
  ARN : String
deriving DecidableEq, Repr

/-- Modelled from the spec: `sts.Identity.Equals` is not under `src/`; §3
says two identities are compared for equality by their canonical
identifier, not by their input string form. -/
def Identity.Equals (i other : Identity) : Bool := i.ARN == other.ARN

/-- Opaque evaluation context (`context.Context`), passed through unchanged
to the namespace finder. -/
structure Ctx

/-- The two attributes of a pod that the engine reads: the name of its
namespace and the value of its role annotation. -/
structure Pod where
  nsName : String
  iamRole : String
deriving DecidableEq, Repr

/-- Modelled from the spec: `k8s.PodRole` is not under `src/`; §4.3 says the
annotated role string is read directly from the role annotation of the
workload. -/
def PodRole (pod : Pod) : String := pod.iamRole

/-- A namespace object: only its annotation map is read by the engine. -/
structure Namespace where
  annotations : List (String × String)
deriving DecidableEq, Repr

/-- Reading the annotation map at a key: a Go map read yields the zero
value `""` for a missing key, so an absent annotation and an empty one are
indistinguishable here, exactly as in the source. -/
def Namespace.annotationValue (ns : Namespace) (k : String) : String :=
  ((ns.annotations).lookup k).getD ""

/-- Modelled from the spec: `k8s.AnnotationPermittedKey` is not under
`src/`; §3 says the namespace carries one designated annotation holding the
permission expression.  Its literal value is immaterial to every claim. -/
def permittedAnnotationKey : String := "iam.amazonaws.com/permitted"

/-- Decision values producible by the engine: the three concrete types of
the source implementing the `Decision` interface. -/
inductive Decision where
  | allowed
  | forbidden (requested annotated : String)
  | namespacePolicyForbidden (expression role : String)
deriving DecidableEq, Repr

/-- The `IsAllowed` method of each decision type. -/
def Decision.IsAllowed : Decision → Bool
  | .allowed => true
  | .forbidden _ _ => false
  | .namespacePolicyForbidden _ _ => false

/-- The `Explanation` method of each decision type. -/
def Decision.Explanation : Decision → String
  | .allowed => ""
  | .forbidden requested annotated =>
      "requested '" ++ requested ++ "' but annotated with '" ++ annotated ++ "', forbidden"
  | .namespacePolicyForbidden expression role =>
      "namespace policy expression '" ++ expression ++ "' forbids role '" ++ role ++ "'"

/-- The pair of results of one Go evaluation call: an optional decision and
an optional error, exactly the two return values of the source. -/
abbrev PolicyResult := Option Decision × Option Err

/-- The `AssumeRolePolicy` interface: anything with the evaluation
signature. -/
abbrev AssumeRolePolicy := Ctx → String → Pod → PolicyResult

/-- The composite policy: an ordered list of member policies. -/
structure CompositeAssumeRolePolicy where
  policies : List AssumeRolePolicy

/-- Creates a composite that tests all policies pass. -/
def Policies (p : List AssumeRolePolicy) : CompositeAssumeRolePolicy :=
  { policies := p }

/-- Loop body of `CompositeAssumeRolePolicy.IsAllowedAssumeRole`.  The
source checks the member error first (`return nil, err`), then calls
`decision.IsAllowed()`; a member returning a nil decision with a nil error
would make that call panic, embedded as the result `none`. -/
def compositeLoop (ctx : Ctx) (role : String) (pod : Pod) :
    List AssumeRolePolicy → Option PolicyResult
  | [] => some (some .allowed, none)
  | policy :: rest =>
    match policy ctx role pod with
    | (_, some err) => some (none, some err)
    | (some decision, none) =>
        if decision.IsAllowed then compositeLoop ctx role pod rest
        else some (some decision, none)
    | (none, none) => none

/-- Evaluation of the composite policy: iterate the members in configured
order, stop at the first error or the first non-allowing decision, and
return `allowed` when every member allowed. -/
def CompositeAssumeRolePolicy.IsAllowedAssumeRole (p : CompositeAssumeRolePolicy)
    (ctx : Ctx) (role : String) (pod : Pod) : Option PolicyResult :=
  compositeLoop ctx role pod p.policies

/-- The annotation-match policy: holds the resolver collaborator.  The
source struct also holds a pod getter that its evaluation never uses; it
is omitted here. -/
structure RequestingAnnotatedRolePolicy where
  resolver : String → Except Err Identity

/-- Constructor `NewRequestingAnnotatedRolePolicy`. -/
def NewRequestingAnnotatedRolePolicy (resolver : String → Except Err Identity) :
    RequestingAnnotatedRolePolicy :=
  { resolver := resolver }

/-- Evaluation of the annotation-match policy: resolve the annotated role
string and the requested role string, propagate either resolution error,
allow on equal identities and otherwise return `forbidden` built from the
requested input string and the `Name` of the annotated identity. -/
def RequestingAnnotatedRolePolicy.IsAllowedAssumeRole
    (p : RequestingAnnotatedRolePolicy) (_ctx : Ctx) (role : String) (pod : Pod) :
    PolicyResult :=
  match p.resolver (PodRole pod) with
  | .error err => (none, some err)
  | .ok annotatedIdentiy =>
    match p.resolver role with
    | .error err => (none, some err)
    | .ok requestedIdentity =>
      if annotatedIdentiy.Equals requestedIdentity then (some .allowed, none)
      else (some (.forbidden role annotatedIdentiy.Name), none)

/-- The namespace-permission policy: holds the namespace finder and the
resolver collaborators and the strict flag fixed at construction. -/
structure NamespacePermittedRoleNamePolicy where
  namespaces : Ctx → String → Except Err Namespace
  resolver : String → Except Err Identity
  strict : Bool

/-- Constructor `NewNamespacePermittedRoleNamePolicy`. -/
def NewNamespacePermittedRoleNamePolicy (strictRegexp : Bool)
    (n : Ctx → String → Except Err Namespace)
    (resolver : String → Except Err Identity) : NamespacePermittedRoleNamePolicy :=
  { namespaces := n, resolver := resolver, strict := strictRegexp }

/-- Evaluation of the namespace-permission policy: resolve the requested
role, find the namespace of the pod, read its permission expression
(denying with the literal marker when it is empty), compile the expression
(prepending `^` and appending `$` when strict), propagate every
collaborator error, and match the compiled expression against the ARN of
the requested identity. -/
def NamespacePermittedRoleNamePolicy.IsAllowedAssumeRole
    (p : NamespacePermittedRoleNamePolicy) (ctx : Ctx) (role : String) (pod : Pod) :
    PolicyResult :=
  match p.resolver role with
  | .error err => (none, some err)
  | .ok requestedIdentity =>
    match p.namespaces ctx pod.nsName with
    | .error err => (none, some err)
    | .ok ns =>
      let expression := ns.annotationValue permittedAnnotationKey
      if expression = "" then
        (some (.namespacePolicyForbidden "(empty)" role), none)
      else
        match (if p.strict then regexpCompile ("^" ++ expression ++ "$")
               else regexpCompile expression) with
        | .error err => (none, some err)
        | .ok re =>
          if !(re.MatchString requestedIdentity.ARN) then
            (some (.namespacePolicyForbidden expression requestedIdentity.ARN), none)
          else (some .allowed, none)

/-- A regex matching one literal word: the concatenation of its characters.
Used to state what anchoring does to literal permission expressions. -/
def litRegex : List Char → Regex
  | [] => .eps
  | c :: rest => .cat (.chr c) (litRegex rest)

/-- The exclusivity of the two returned values of one evaluation: a non-nil
error comes with a nil decision, a nil error with a non-nil decision. -/
def exclusiveResult (r : PolicyResult) : Prop :=
  (r.2 ≠ none → r.1 = none) ∧ (r.2 = none → r.1 ≠ none)

/-- A member policy that always allows. -/
def allowP : AssumeRolePolicy := fun _ _ _ => (some .allowed, none)

/-- A member policy that always denies. -/
def denyP : AssumeRolePolicy := fun _ _ _ => (some (.forbidden "r" "a"), none)

/-- A member policy that always errors. -/
def errP : AssumeRolePolicy := fun _ _ _ => (none, some "boom")

/-- A concrete pod for witnesses. -/
def pod0 : Pod := ⟨"ns1", "annotated-role"⟩

/-- A concrete evaluation context for witnesses. -/
def ctx0 : Ctx := ⟨⟩

/-- A resolver for which every role string is already canonical. -/
def idResolver : String → Except Err Identity := fun s => .ok ⟨s, s⟩

/-- A resolver that fails on every role string. -/
def errResolver : String → Except Err Identity := fun _ => .error "resolve failed"

/-- A resolver that resolves only the annotated role of `pod0`. -/
def partialResolver : String → Except Err Identity := fun s =>
  if s = "annotated-role" then .ok ⟨"annotated-role", "annotated-role"⟩
  else .error "resolve failed"

/-- A namespace finder that fails on every lookup. -/
def errFinder : Ctx → String → Except Err Namespace := fun _ _ => .error "namespace lookup failed"

/-- A namespace finder returning a namespace whose permission expression is
`e`. -/
def nsFinderWith (e : String) : Ctx → String → Except Err Namespace :=
  fun _ _ => .ok ⟨[(permittedAnnotationKey, e)]⟩

/-- A namespace finder returning a namespace with no annotations at all. -/
def nsFinderEmpty : Ctx → String → Except Err Namespace := fun _ _ => .ok ⟨[]⟩

/-- A resolver mapping the fully qualified annotated role to an identity
whose `Name` is its short name, as the surrounding broker does. -/
def resolverC4 : String → Except Err Identity := fun s =>
  if s = "arn:aws:iam::111:role/readonly" then
    .ok ⟨"readonly", "arn:aws:iam::111:role/readonly"⟩
  else if s = "admin" then .ok ⟨"admin", "arn:aws:iam::111:role/admin"⟩
  else .error "unable to resolve"

/-- A pod annotated with a fully qualified role identifier. -/
def podC4 : Pod := ⟨"ns1", "arn:aws:iam::111:role/readonly"⟩

/-- The compiled form of the literal expression `foo` in the modelled
engine. -/
def fooRegex : Regex := .cat (.chr 'f') (.cat (.chr 'o') (.cat (.chr 'o') .eps))

/-- Whole-text match of a compiled regex: the match begins at position `0`
and ends at the length of the text. -/
def wholeMatch (re : Regex) (s : String) : Bool :=
  (matchEnds s.toList re 0).contains s.toList.length

/-- Written from the words of the spec, for comparison with the source:
a permission expression "performs a full-string match" against a candidate
identifier when the compiled expression matches the whole candidate. -/
def specFullStringMatch (expression s : String) : Bool :=
  match regexpCompile expression with
  | .ok re => wholeMatch re s
  | .error _ => false

/-- When every earlier member returns an allowing decision, the composite
loop reaches the rest of the list unchanged. -/
theorem compositeLoop_append_of_allows (ctx : Ctx) (role : String) (pod : Pod)
    (pre rest : List AssumeRolePolicy)
    (h : ∀ p ∈ pre, ∃ d, p ctx role pod = (some d, none) ∧ d.IsAllowed = true) :
    compositeLoop ctx role pod (pre ++ rest) = compositeLoop ctx role pod rest := by
  induction pre with
  | nil => rfl
  | cons p pre ih =>
    obtain ⟨d, hp, hd⟩ := h p (List.mem_cons_self p pre)
    simp only [List.cons_append, compositeLoop, hp, hd, if_true]
    exact ih fun q hq => h q (List.mem_cons_of_mem p hq)

/-- Under error-free members, the composite loop returns a denial exactly
when some member returns one. -/
theorem compositeLoop_denies_iff (ctx : Ctx) (role : String) (pod : Pod)
    (ps : List AssumeRolePolicy)
    (hall : ∀ p ∈ ps, ∃ d, p ctx role pod = (some d, none)) :
    (∃ d, compositeLoop ctx role pod ps = some (some d, none) ∧ d.IsAllowed = false) ↔
      ∃ p ∈ ps, ∃ d, p ctx role pod = (some d, none) ∧ d.IsAllowed = false := by
  induction ps with
  | nil => simp [compositeLoop, Decision.IsAllowed]
  | cons p rest ih =>
    obtain ⟨d0, hp⟩ := hall p (List.mem_cons_self p rest)
    have ihr := ih fun q hq => hall q (List.mem_cons_of_mem p hq)
    by_cases hallow : d0.IsAllowed = true
    · have hstep : compositeLoop ctx role pod (p :: rest) = compositeLoop ctx role pod rest := by
        simp [compositeLoop, hp, hallow]
      rw [hstep, ihr]
      constructor
      · rintro ⟨q, hq, hd⟩
        exact ⟨q, List.mem_cons_of_mem p hq, hd⟩
      · rintro ⟨q, hq, d, hqd, hdf⟩
        rcases List.mem_cons.mp hq with rfl | hq2
        · rw [hp] at hqd
          obtain ⟨h1, _⟩ := Prod.mk.injEq .. ▸ hqd
          cases Option.some.injEq .. ▸ h1
          exact absurd hallow (by simp [hdf])
        · exact ⟨q, hq2, d, hqd, hdf⟩
    · have hfalse : d0.IsAllowed = false := by simpa using hallow
      have hstep : compositeLoop ctx role pod (p :: rest) = some (some d0, none) := by
        simp [compositeLoop, hp, hfalse]
      rw [hstep]
      constructor
      · intro _
        exact ⟨p, List.mem_cons_self p rest, d0, hp, hfalse⟩
      · intro _
        exact ⟨d0, rfl, hfalse⟩

/-- A denial surfaced by the composite loop is the decision of one of its
members; errors are never turned into denials. -/
theorem compositeLoop_denial_from_member (ctx : Ctx) (role : String) (pod : Pod)
    (ps : List AssumeRolePolicy) (d : Decision)
    (hres : compositeLoop ctx role pod ps = some (some d, none))
    (hd : d.IsAllowed = false) :
    ∃ p ∈ ps, p ctx role pod = (some d, none) := by
  induction ps with
  | nil =>
    simp only [compositeLoop, Option.some.injEq, Prod.mk.injEq] at hres
    cases hres.1
    simp [Decision.IsAllowed] at hd
  | cons p rest ih =>
    rcases hv : p ctx role pod with ⟨a, b⟩
    cases b with
    | some e =>
      simp only [compositeLoop, hv] at hres
      exact absurd hres.symm (by simp)
    | none =>
      cases a with
      | none => simp [compositeLoop, hv] at hres
      | some dec =>
        by_cases hallow : dec.IsAllowed = true
        · have hstep : compositeLoop ctx role pod (p :: rest) = compositeLoop ctx role pod rest := by
            simp [compositeLoop, hv, hallow]
          obtain ⟨q, hq, hqe⟩ := ih (hstep ▸ hres)
          exact ⟨q, List.mem_cons_of_mem p hq, hqe⟩
        · have hfalse : dec.IsAllowed = false := by simpa using hallow
          have hstep : compositeLoop ctx role pod (p :: rest) = some (some dec, none) := by
            simp [compositeLoop, hv, hfalse]
          rw [hstep] at hres
          obtain ⟨h1, _⟩ := Prod.mk.injEq .. ▸ Option.some.injEq .. ▸ hres
          cases Option.some.injEq .. ▸ h1
          exact ⟨p, List.mem_cons_self p rest, hv⟩

/-- C2: for every list of member policies whose evaluations all succeed
without error, the composite returns a denying decision iff at least one
member returns one; on the first non-allowing decision it returns exactly
that decision whatever the later policies are; and on the empty list it
returns `allowed`. -/
theorem composite_conjunction_law :
    (∀ (ps : List AssumeRolePolicy) (ctx : Ctx) (role : String) (pod : Pod),
      (∀ p ∈ ps, ∃ d, p ctx role pod = (some d, none)) →
      ((∃ d, (Policies ps).IsAllowedAssumeRole ctx role pod = some (some d, none) ∧
          d.IsAllowed = false) ↔
        ∃ p ∈ ps, ∃ d, p ctx role pod = (some d, none) ∧ d.IsAllowed = false)) ∧
    (∀ (pre : List AssumeRolePolicy) (q : AssumeRolePolicy) (post : List AssumeRolePolicy)
      (ctx : Ctx) (role : String) (pod : Pod) (d : Decision),
      (∀ p ∈ pre, ∃ d0, p ctx role pod = (some d0, none) ∧ d0.IsAllowed = true) →
      q ctx role pod = (some d, none) → d.IsAllowed = false →
      (Policies (pre ++ q :: post)).IsAllowedAssumeRole ctx role pod = some (some d, none)) ∧
    (∀ (ctx : Ctx) (role : String) (pod : Pod),
      (Policies []).IsAllowedAssumeRole ctx role pod = some (some .allowed, none)) := by
  refine ⟨?_, ?_, fun _ _ _ => rfl⟩
  · intro ps ctx role pod hall
    exact compositeLoop_denies_iff ctx role pod ps hall
  · intro pre q post ctx role pod d hpre hq hd
    show compositeLoop ctx role pod (pre ++ q :: post) = some (some d, none)
    rw [compositeLoop_append_of_allows ctx role pod pre (q :: post) hpre]
    simp [compositeLoop, hq, hd]

/-- Witness for C2 at concrete policies: one allowing then one denying
member yields the denial of the denying member, the short-circuit ignores
a later erroring member, and the empty composite allows. -/
theorem composite_conjunction_law_witness :
    ((∃ d, (Policies [allowP, denyP]).IsAllowedAssumeRole ctx0 "r" pod0 = some (some d, none) ∧
        d.IsAllowed = false) ↔
      ∃ p ∈ [allowP, denyP], ∃ d, p ctx0 "r" pod0 = (some d, none) ∧ d.IsAllowed = false) ∧
    (Policies ([allowP] ++ denyP :: [errP])).IsAllowedAssumeRole ctx0 "r" pod0
      = some (some (Decision.forbidden "r" "a"), none) ∧
    (Policies []).IsAllowedAssumeRole ctx0 "r" pod0 = some (some .allowed, none) := by
  refine ⟨composite_conjunction_law.1 [allowP, denyP] ctx0 "r" pod0 ?_,
    composite_conjunction_law.2.1 [allowP] denyP [errP] ctx0 "r" pod0
      (Decision.forbidden "r" "a") ?_ rfl rfl,
    composite_conjunction_law.2.2 ctx0 "r" pod0⟩
  · intro p hp
    rcases List.mem_cons.mp hp with rfl | hp2
    · exact ⟨.allowed, rfl⟩
    · rcases List.mem_cons.mp hp2 with rfl | hp3
      · exact ⟨.forbidden "r" "a", rfl⟩
      · cases hp3
  · intro p hp
    rcases List.mem_cons.mp hp with rfl | hp2
    · exact ⟨.allowed, rfl, rfl⟩
    · cases hp2

/-- C3 counterexample: a member policy returns a non-nil error, yet the
composite does not return that error, because an earlier member already
denied: with the members denying then erroring, the composite returns the
denial with a nil error, not the error of the erroring member. -/
theorem composite_first_error_counterexample :
    errP ctx0 "r" pod0 = (none, some "boom") ∧
    (Policies [denyP, errP]).IsAllowedAssumeRole ctx0 "r" pod0
      = some (some (Decision.forbidden "r" "a"), none) ∧
    ∀ e : Err, (Policies [denyP, errP]).IsAllowedAssumeRole ctx0 "r" pod0
      ≠ some (none, some e) := by
  refine ⟨rfl, rfl, ?_⟩
  intro e h
  rw [show (Policies [denyP, errP]).IsAllowedAssumeRole ctx0 "r" pod0
      = some (some (Decision.forbidden "r" "a"), none) from rfl] at h
  simp at h

/-- C3 amended: when every member before the first erroring member returns
an allowing decision, the composite returns that member's error, whatever
the policies after it are (they are never consulted). -/
theorem composite_first_error_after_allows
    (pre : List AssumeRolePolicy) (q : AssumeRolePolicy) (post : List AssumeRolePolicy)
    (ctx : Ctx) (role : String) (pod : Pod) (e : Err)
    (hpre : ∀ p ∈ pre, ∃ d, p ctx role pod = (some d, none) ∧ d.IsAllowed = true)
    (hq : (q ctx role pod).2 = some e) :
    (Policies (pre ++ q :: post)).IsAllowedAssumeRole ctx role pod = some (none, some e) := by
  show compositeLoop ctx role pod (pre ++ q :: post) = some (none, some e)
  rw [compositeLoop_append_of_allows ctx role pod pre (q :: post) hpre]
  rcases hv : q ctx role pod with ⟨a, b⟩
  rw [hv] at hq
  cases hq
  simp [compositeLoop, hv]

/-- Witness for the amended C3: an allowing member, then an erroring one,
then a denying one that is never consulted. -/
theorem composite_first_error_after_allows_witness :
    (Policies ([allowP] ++ errP :: [denyP])).IsAllowedAssumeRole ctx0 "r" pod0
      = some (none, some "boom") := by
  refine composite_first_error_after_allows [allowP] errP [denyP] ctx0 "r" pod0 "boom" ?_ rfl
  intro p hp
  rcases List.mem_cons.mp hp with rfl | hp2
  · exact ⟨.allowed, rfl, rfl⟩
  · cases hp2

/-- C9: evaluation of the composite is deterministic: two composites whose
member lists exhibit identical behaviour on all inputs (in particular, the
same composite evaluated twice with unchanged collaborators) return
identical results on identical context, role and pod. -/
theorem composite_deterministic (ps qs : List AssumeRolePolicy)
    (h : List.Forall₂ (fun p q => ∀ (ctx : Ctx) (role : String) (pod : Pod),
        p ctx role pod = q ctx role pod) ps qs)
    (ctx : Ctx) (role : String) (pod : Pod) :
    (Policies ps).IsAllowedAssumeRole ctx role pod
      = (Policies qs).IsAllowedAssumeRole ctx role pod := by
  show compositeLoop ctx role pod ps = compositeLoop ctx role pod qs
  induction h with
  | nil => rfl
  | @cons p q ps' qs' hpq _ ih =>
    simp only [compositeLoop, hpq ctx role pod]
    rcases q ctx role pod with ⟨a, b⟩
    cases b with
    | some e => cases a <;> rfl
    | none =>
      cases a with
      | none => rfl
      | some dec =>
        by_cases hallow : dec.IsAllowed = true
        · simpa [hallow] using ih
        · simp [Bool.not_eq_true] at hallow
          simp [hallow]

/-- Witness for C9: two syntactically different but extensionally equal
member lists give the same result. -/
theorem composite_deterministic_witness :
    (Policies [allowP]).IsAllowedAssumeRole ctx0 "r" pod0
      = (Policies [fun _ _ _ => (some .allowed, none)]).IsAllowedAssumeRole ctx0 "r" pod0 :=
  composite_deterministic [allowP] [fun _ _ _ => (some .allowed, none)]
    (List.Forall₂.cons (fun _ _ _ => rfl) List.Forall₂.nil) ctx0 "r" pod0

/-- Appending strings appends their character lists. -/
theorem string_toList_append (s t : String) : (s ++ t).toList = s.toList ++ t.toList :=
  String.data_append s t

/-- The annotation-match policy returns exactly one of a decision and an
error, at every return site. -/
theorem requesting_exclusive (p : RequestingAnnotatedRolePolicy) (ctx : Ctx)
    (role : String) (pod : Pod) :
    exclusiveResult (p.IsAllowedAssumeRole ctx role pod) := by
  unfold RequestingAnnotatedRolePolicy.IsAllowedAssumeRole
  rcases p.resolver (PodRole pod) with e | a
  · simp [exclusiveResult]
  · rcases p.resolver role with e | r
    · simp [exclusiveResult]
    · by_cases h : a.Equals r <;> simp [h, exclusiveResult]

/-- The namespace-permission policy returns exactly one of a decision and
an error, at every return site. -/
theorem namespacePerm_exclusive (p : NamespacePermittedRoleNamePolicy) (ctx : Ctx)
    (role : String) (pod : Pod) :
    exclusiveResult (p.IsAllowedAssumeRole ctx role pod) := by
  unfold NamespacePermittedRoleNamePolicy.IsAllowedAssumeRole
  rcases p.resolver role with e | rid
  · simp [exclusiveResult]
  · rcases p.namespaces ctx pod.nsName with e | ns
    · simp [exclusiveResult]
    · by_cases hemp : ns.annotationValue permittedAnnotationKey = ""
      · simp [hemp, exclusiveResult]
      · rcases hc : (if p.strict then
            regexpCompile ("^" ++ ns.annotationValue permittedAnnotationKey ++ "$")
          else regexpCompile (ns.annotationValue permittedAnnotationKey)) with e | re
        · simp [hemp, hc, exclusiveResult]
        · by_cases hm : re.MatchString rid.ARN = true <;> simp [hemp, hc, hm, exclusiveResult]

/-- When no member of the composite loop returns the nil-decision nil-error
pair, the loop returns a pair with exactly one of a decision and an
error. -/
theorem compositeLoop_exclusive (ctx : Ctx) (role : String) (pod : Pod)
    (ps : List AssumeRolePolicy)
    (h : ∀ p ∈ ps, p ctx role pod ≠ (none, none)) :
    ∃ r, compositeLoop ctx role pod ps = some r ∧ exclusiveResult r := by
  induction ps with
  | nil => exact ⟨(some .allowed, none), rfl, by simp [exclusiveResult]⟩
  | cons p rest ih =>
    rcases hv : p ctx role pod with ⟨a, b⟩
    cases b with
    | some e =>
      refine ⟨(none, some e), ?_, by simp [exclusiveResult]⟩
      cases a <;> simp [compositeLoop, hv]
    | none =>
      cases a with
      | none => exact absurd hv (h p (List.mem_cons_self p rest))
      | some dec =>
        by_cases hallow : dec.IsAllowed = true
        · obtain ⟨r, hr, hex⟩ := ih fun q hq => h q (List.mem_cons_of_mem p hq)
          exact ⟨r, by simp [compositeLoop, hv, hallow, hr], hex⟩
        · refine ⟨(some dec, none), ?_, by simp [exclusiveResult]⟩
          simp [Bool.not_eq_true] at hallow
          simp [compositeLoop, hv, hallow]

/-- C10: every policy variant returns exactly one of a decision and an
error: the two single policies do so unconditionally, and the composite
does so whenever its members do (a member returning neither would make the
source dereference a nil decision, the `none` result of the loop). -/
theorem decision_or_error_exclusive :
    (∀ (p : RequestingAnnotatedRolePolicy) (ctx : Ctx) (role : String) (pod : Pod),
      exclusiveResult (p.IsAllowedAssumeRole ctx role pod)) ∧
    (∀ (p : NamespacePermittedRoleNamePolicy) (ctx : Ctx) (role : String) (pod : Pod),
      exclusiveResult (p.IsAllowedAssumeRole ctx role pod)) ∧
    (∀ (c : CompositeAssumeRolePolicy) (ctx : Ctx) (role : String) (pod : Pod),
      (∀ p ∈ c.policies, p ctx role pod ≠ (none, none)) →
      ∃ r, c.IsAllowedAssumeRole ctx role pod = some r ∧ exclusiveResult r) :=
  ⟨requesting_exclusive, namespacePerm_exclusive,
    fun c ctx role pod h => compositeLoop_exclusive ctx role pod c.policies h⟩

/-- Witness for C10 at concrete policies. -/
theorem decision_or_error_exclusive_witness :
    exclusiveResult ((NewRequestingAnnotatedRolePolicy idResolver).IsAllowedAssumeRole
      ctx0 "r" pod0) ∧
    exclusiveResult ((NewNamespacePermittedRoleNamePolicy true (nsFinderWith "foo")
      idResolver).IsAllowedAssumeRole ctx0 "foo" pod0) ∧
    ∃ r, (Policies [allowP]).IsAllowedAssumeRole ctx0 "r" pod0 = some r ∧
      exclusiveResult r := by
  refine ⟨decision_or_error_exclusive.1 _ ctx0 "r" pod0,
    decision_or_error_exclusive.2.1 _ ctx0 "foo" pod0,
    decision_or_error_exclusive.2.2 (Policies [allowP]) ctx0 "r" pod0 ?_⟩
  intro p hp
  rcases List.mem_cons.mp hp with rfl | hp2
  · simp [allowP]
  · cases hp2

/-- C8: a decision that allows has an empty explanation; a decision that
denies has a non-empty explanation containing the values the rule
compared. -/
theorem decision_invariant (d : Decision) :
    (d.IsAllowed = true → d.Explanation = "") ∧
    (d.IsAllowed = false → d.Explanation ≠ "" ∧
      (∀ requested annotated, d = .forbidden requested annotated →
        requested.toList <:+: d.Explanation.toList ∧
        annotated.toList <:+: d.Explanation.toList) ∧
      (∀ expression role, d = .namespacePolicyForbidden expression role →
        expression.toList <:+: d.Explanation.toList ∧
        role.toList <:+: d.Explanation.toList)) := by
  cases d with
  | allowed =>
    exact ⟨fun _ => rfl, fun h => by simp [Decision.IsAllowed] at h⟩
  | forbidden r a =>
    refine ⟨fun h => by simp [Decision.IsAllowed] at h, fun _ => ⟨?_, ?_, ?_⟩⟩
    · intro h
      have hlen := congrArg String.length h
      simp only [Decision.Explanation, String.length_append] at hlen
      rw [show ("requested '".length = 11) from rfl, show ("".length = 0) from rfl] at hlen
      omega
    · intro r2 a2 heq
      injection heq with h1 h2
      subst h1; subst h2
      constructor
      · refine ⟨"requested '".toList,
          ("' but annotated with '" ++ a ++ "', forbidden").toList, ?_⟩
        show _ = String.toList _
        simp only [Decision.Explanation, string_toList_append, List.append_assoc]
      · refine ⟨("requested '" ++ r ++ "' but annotated with '").toList,
          "', forbidden".toList, ?_⟩
        show _ = String.toList _
        simp only [Decision.Explanation, string_toList_append, List.append_assoc]
    · intro e2 role2 heq
      cases heq
  | namespacePolicyForbidden e role =>
    refine ⟨fun h => by simp [Decision.IsAllowed] at h, fun _ => ⟨?_, ?_, ?_⟩⟩
    · intro h
      have hlen := congrArg String.length h
      simp only [Decision.Explanation, String.length_append] at hlen
      rw [show ("namespace policy expression '".length = 29) from rfl,
        show ("".length = 0) from rfl] at hlen
      omega
    · intro r2 a2 heq
      cases heq
    · intro e2 role2 heq
      injection heq with h1 h2
      subst h1; subst h2
      constructor
      · refine ⟨"namespace policy expression '".toList,
          ("' forbids role '" ++ role ++ "'").toList, ?_⟩
        show _ = String.toList _
        simp only [Decision.Explanation, string_toList_append, List.append_assoc]
      · refine ⟨("namespace policy expression '" ++ e ++ "' forbids role '").toList,
          "'".toList, ?_⟩
        show _ = String.toList _
        simp only [Decision.Explanation, string_toList_append, List.append_assoc]

/-- Witness for C8: the invariant evaluated at one denying decision of each
kind and at the allowing decision. -/
theorem decision_invariant_witness :
    (Decision.allowed.Explanation = "") ∧
    ((Decision.forbidden "admin" "readonly").Explanation ≠ "") ∧
    ((Decision.namespacePolicyForbidden "foo" "xbar").Explanation ≠ "") := by
  refine ⟨(decision_invariant .allowed).1 rfl, ?_, ?_⟩
  · exact ((decision_invariant (.forbidden "admin" "readonly")).2 rfl).1
  · exact ((decision_invariant (.namespacePolicyForbidden "foo" "xbar")).2 rfl).1

/-- C7: each collaborator failure surfaces as the returned error, never as
a denial: resolution failure of the annotated role, resolution failure of
the requested role (in either policy), namespace lookup failure, and
compilation failure of a non-empty expression all return the error; and a
denial surfaced by the composite is always the decision of one of its
members. -/
theorem errors_propagate :
    (∀ (p : RequestingAnnotatedRolePolicy) (ctx : Ctx) (role : String) (pod : Pod) (e : Err),
      p.resolver (PodRole pod) = .error e →
      p.IsAllowedAssumeRole ctx role pod = (none, some e)) ∧
    (∀ (p : RequestingAnnotatedRolePolicy) (ctx : Ctx) (role : String) (pod : Pod)
      (a : Identity) (e : Err),
      p.resolver (PodRole pod) = .ok a → p.resolver role = .error e →
      p.IsAllowedAssumeRole ctx role pod = (none, some e)) ∧
    (∀ (p : NamespacePermittedRoleNamePolicy) (ctx : Ctx) (role : String) (pod : Pod) (e : Err),
      p.resolver role = .error e →
      p.IsAllowedAssumeRole ctx role pod = (none, some e)) ∧
    (∀ (p : NamespacePermittedRoleNamePolicy) (ctx : Ctx) (role : String) (pod : Pod)
      (rid : Identity) (e : Err),
      p.resolver role = .ok rid → p.namespaces ctx pod.nsName = .error e →
      p.IsAllowedAssumeRole ctx role pod = (none, some e)) ∧
    (∀ (p : NamespacePermittedRoleNamePolicy) (ctx : Ctx) (role : String) (pod : Pod)
      (rid : Identity) (ns : Namespace) (ex : String) (e : Err),
      p.resolver role = .ok rid → p.namespaces ctx pod.nsName = .ok ns →
      ns.annotationValue permittedAnnotationKey = ex → ex ≠ "" →
      (if p.strict then regexpCompile ("^" ++ ex ++ "$") else regexpCompile ex) = .error e →
      p.IsAllowedAssumeRole ctx role pod = (none, some e)) ∧
    (∀ (c : CompositeAssumeRolePolicy) (ctx : Ctx) (role : String) (pod : Pod) (d : Decision),
      c.IsAllowedAssumeRole ctx role pod = some (some d, none) → d.IsAllowed = false →
      ∃ p ∈ c.policies, p ctx role pod = (some d, none)) := by
  refine ⟨?_, ?_, ?_, ?_, ?_, ?_⟩
  · intro p ctx role pod e h
    simp [RequestingAnnotatedRolePolicy.IsAllowedAssumeRole, h]
  · intro p ctx role pod a e ha h
    simp [RequestingAnnotatedRolePolicy.IsAllowedAssumeRole, ha, h]
  · intro p ctx role pod e h
    simp [NamespacePermittedRoleNamePolicy.IsAllowedAssumeRole, h]
  · intro p ctx role pod rid e hr h
    simp [NamespacePermittedRoleNamePolicy.IsAllowedAssumeRole, hr, h]
  · intro p ctx role pod rid ns ex e hr hn hex hne hc
    subst hex
    simp [NamespacePermittedRoleNamePolicy.IsAllowedAssumeRole, hr, hn, hne, hc]
  · intro c ctx role pod d hres hd
    exact compositeLoop_denial_from_member ctx role pod c.policies d hres hd

/-- Witness for C7 at concrete failing collaborators of every kind. -/
theorem errors_propagate_witness :
    (NewRequestingAnnotatedRolePolicy errResolver).IsAllowedAssumeRole ctx0 "r" pod0
      = (none, some "resolve failed") ∧
    (NewRequestingAnnotatedRolePolicy partialResolver).IsAllowedAssumeRole ctx0 "other" pod0
      = (none, some "resolve failed") ∧
    (NewNamespacePermittedRoleNamePolicy true (nsFinderWith "foo")
        errResolver).IsAllowedAssumeRole ctx0 "r" pod0 = (none, some "resolve failed") ∧
    (NewNamespacePermittedRoleNamePolicy true errFinder idResolver).IsAllowedAssumeRole
        ctx0 "r" pod0 = (none, some "namespace lookup failed") ∧
    (NewNamespacePermittedRoleNamePolicy false (nsFinderWith "a[b")
        idResolver).IsAllowedAssumeRole ctx0 "r" pod0
      = (none, some "error parsing regexp: a[b") ∧
    ∃ p ∈ (Policies [denyP]).policies, p ctx0 "r" pod0
      = (some (Decision.forbidden "r" "a"), none) := by
  refine ⟨errors_propagate.1 _ ctx0 "r" pod0 _ rfl,
    errors_propagate.2.1 _ ctx0 "other" pod0 ⟨"annotated-role", "annotated-role"⟩ _ rfl rfl,
    errors_propagate.2.2.1 _ ctx0 "r" pod0 _ rfl,
    errors_propagate.2.2.2.1 _ ctx0 "r" pod0 ⟨"r", "r"⟩ _ rfl rfl,
    errors_propagate.2.2.2.2.1 _ ctx0 "r" pod0 ⟨"r", "r"⟩ ⟨[(permittedAnnotationKey, "a[b")]⟩
      "a[b" _ rfl rfl rfl (by decide) rfl,
    errors_propagate.2.2.2.2.2 (Policies [denyP]) ctx0 "r" pod0
      (Decision.forbidden "r" "a") rfl rfl⟩

/-- C4 counterexample: both strings resolve, the identities differ, and the
explanation of the denial does not contain the annotated input string
(which is a fully qualified identifier): it contains the `Name` of the
resolved annotated identity instead.  The claim that the explanation
contains both input strings is false at this input. -/
theorem requestingAnnotated_explanation_counterexample :
    resolverC4 (PodRole podC4) = .ok ⟨"readonly", "arn:aws:iam::111:role/readonly"⟩ ∧
    resolverC4 "admin" = .ok ⟨"admin", "arn:aws:iam::111:role/admin"⟩ ∧
    (NewRequestingAnnotatedRolePolicy resolverC4).IsAllowedAssumeRole ctx0 "admin" podC4
      = (some (Decision.forbidden "admin" "readonly"), none) ∧
    ¬ ((PodRole podC4).toList <:+:
        (Decision.forbidden "admin" "readonly").Explanation.toList) := by
  refine ⟨rfl, rfl, rfl, ?_⟩
  decide

/-- C4 amended: when both strings resolve, the policy allows on equal
identities and otherwise denies with the explanation of the exact form
"requested 'X' but annotated with 'Y', forbidden", where X is the
requested input string and Y is the `Name` of the resolved annotated
identity (not necessarily the annotated input string); the explanation
contains X and Y. -/
theorem requestingAnnotated_decision (p : RequestingAnnotatedRolePolicy) (ctx : Ctx)
    (role : String) (pod : Pod) (a r : Identity)
    (ha : p.resolver (PodRole pod) = .ok a) (hr : p.resolver role = .ok r) :
    (a.Equals r = true → p.IsAllowedAssumeRole ctx role pod = (some .allowed, none)) ∧
    (a.Equals r = false →
      p.IsAllowedAssumeRole ctx role pod = (some (.forbidden role a.Name), none) ∧
      (Decision.forbidden role a.Name).IsAllowed = false ∧
      (Decision.forbidden role a.Name).Explanation
        = "requested '" ++ role ++ "' but annotated with '" ++ a.Name ++ "', forbidden" ∧
      role.toList <:+: (Decision.forbidden role a.Name).Explanation.toList ∧
      a.Name.toList <:+: (Decision.forbidden role a.Name).Explanation.toList) := by
  constructor
  · intro he
    simp [RequestingAnnotatedRolePolicy.IsAllowedAssumeRole, ha, hr, he]
  · intro he
    refine ⟨?_, rfl, rfl, ?_, ?_⟩
    · simp [RequestingAnnotatedRolePolicy.IsAllowedAssumeRole, ha, hr, he]
    · refine ⟨"requested '".toList,
        ("' but annotated with '" ++ a.Name ++ "', forbidden").toList, ?_⟩
      show _ = String.toList _
      simp only [Decision.Explanation, string_toList_append, List.append_assoc]
    · refine ⟨("requested '" ++ role ++ "' but annotated with '").toList,
        "', forbidden".toList, ?_⟩
      show _ = String.toList _
      simp only [Decision.Explanation, string_toList_append, List.append_assoc]

/-- Witness for the amended C4: an equal pair allows, an unequal pair
denies with the expected decision. -/
theorem requestingAnnotated_decision_witness :
    (NewRequestingAnnotatedRolePolicy resolverC4).IsAllowedAssumeRole ctx0
        "arn:aws:iam::111:role/readonly" podC4 = (some .allowed, none) ∧
    (NewRequestingAnnotatedRolePolicy resolverC4).IsAllowedAssumeRole ctx0 "admin" podC4
      = (some (.forbidden "admin" "readonly"), none) := by
  constructor
  · exact (requestingAnnotated_decision _ ctx0 "arn:aws:iam::111:role/readonly" podC4
      ⟨"readonly", "arn:aws:iam::111:role/readonly"⟩
      ⟨"readonly", "arn:aws:iam::111:role/readonly"⟩ rfl rfl).1 rfl
  · exact ((requestingAnnotated_decision _ ctx0 "admin" podC4
      ⟨"readonly", "arn:aws:iam::111:role/readonly"⟩
      ⟨"admin", "arn:aws:iam::111:role/admin"⟩ rfl rfl).2 rfl).1

/-- C5: when the requested role resolves and the namespace of the pod is
found but carries no permission expression (absent and empty annotations
are the same map read in the source), the policy denies with the literal
marker, whatever the requested role is. -/
theorem namespacePolicy_empty_denies (p : NamespacePermittedRoleNamePolicy) (ctx : Ctx)
    (role : String) (pod : Pod) (rid : Identity) (ns : Namespace)
    (hr : p.resolver role = .ok rid)
    (hn : p.namespaces ctx pod.nsName = .ok ns)
    (hemp : ns.annotationValue permittedAnnotationKey = "") :
    p.IsAllowedAssumeRole ctx role pod
      = (some (.namespacePolicyForbidden "(empty)" role), none) ∧
    (Decision.namespacePolicyForbidden "(empty)" role).IsAllowed = false ∧
    (Decision.namespacePolicyForbidden "(empty)" role).Explanation
      = "namespace policy expression '(empty)' forbids role '" ++ role ++ "'" := by
  refine ⟨?_, rfl, rfl⟩
  simp [NamespacePermittedRoleNamePolicy.IsAllowedAssumeRole, hr, hn, hemp]

/-- Witness for C5: a namespace with no annotations at all denies the
requested role with the literal marker. -/
theorem namespacePolicy_empty_denies_witness :
    (NewNamespacePermittedRoleNamePolicy true nsFinderEmpty idResolver).IsAllowedAssumeRole
        ctx0 "admin" pod0 = (some (.namespacePolicyForbidden "(empty)" "admin"), none) ∧
    (Decision.namespacePolicyForbidden "(empty)" "admin").IsAllowed = false ∧
    (Decision.namespacePolicyForbidden "(empty)" "admin").Explanation
      = "namespace policy expression '(empty)' forbids role '" ++ "admin" ++ "'" :=
  namespacePolicy_empty_denies _ ctx0 "admin" pod0 ⟨"admin", "admin"⟩ ⟨[]⟩ rfl rfl rfl

/-- C6: with a resolvable requested role and a non-empty compilable
expression, the policy matches the compiled expression against the ARN of
the requested identity (not the raw requested role string), allows on a
match and otherwise denies naming the expression and the ARN it failed
against. -/
theorem namespacePolicy_matches_canonical (p : NamespacePermittedRoleNamePolicy) (ctx : Ctx)
    (role : String) (pod : Pod) (rid : Identity) (ns : Namespace) (e : String) (re : Regex)
    (hr : p.resolver role = .ok rid)
    (hn : p.namespaces ctx pod.nsName = .ok ns)
    (he : ns.annotationValue permittedAnnotationKey = e)
    (hne : e ≠ "")
    (hc : (if p.strict then regexpCompile ("^" ++ e ++ "$") else regexpCompile e) = .ok re) :
    p.IsAllowedAssumeRole ctx role pod
      = (if re.MatchString rid.ARN then (some .allowed, none)
         else (some (.namespacePolicyForbidden e rid.ARN), none)) ∧
    (Decision.namespacePolicyForbidden e rid.ARN).Explanation
      = "namespace policy expression '" ++ e ++ "' forbids role '" ++ rid.ARN ++ "'" := by
  subst he
  refine ⟨?_, rfl⟩
  by_cases hm : re.MatchString rid.ARN = true
  · simp [NamespacePermittedRoleNamePolicy.IsAllowedAssumeRole, hr, hn, hne, hc, hm]
  · simp only [Bool.not_eq_true] at hm
    simp [NamespacePermittedRoleNamePolicy.IsAllowedAssumeRole, hr, hn, hne, hc, hm]

/-- Witness for C6: the expression `foo` in non-strict mode, against the
canonical identifier `xfoo`. -/
theorem namespacePolicy_matches_canonical_witness :
    (NewNamespacePermittedRoleNamePolicy false (nsFinderWith "foo")
        idResolver).IsAllowedAssumeRole ctx0 "xfoo" pod0
      = (if fooRegex.MatchString "xfoo" then (some .allowed, none)
         else (some (.namespacePolicyForbidden "foo" "xfoo"), none)) ∧
    (Decision.namespacePolicyForbidden "foo" "xfoo").Explanation
      = "namespace policy expression '" ++ "foo" ++ "' forbids role '" ++ "xfoo" ++ "'" :=
  namespacePolicy_matches_canonical _ ctx0 "xfoo" pod0 ⟨"xfoo", "xfoo"⟩
    ⟨[(permittedAnnotationKey, "foo")]⟩ "foo" fooRegex rfl rfl rfl (by decide) rfl

/-- A literal regex matches from `i` exactly up to `i` plus its length,
and only when its word sits at position `i` of the text. -/
theorem matchEnds_litRegex (s : List Char) (l : List Char) :
    ∀ i : Nat, matchEnds s (litRegex l) i = if l <+: s.drop i then [i + l.length] else [] := by
  induction l with
  | nil =>
    intro i
    simp [litRegex, matchEnds]
  | cons c t ih =>
    intro i
    simp only [litRegex, matchEnds]
    by_cases h : i < s.length
    · rw [dif_pos h]
      have hdrop : s.drop i = s.get ⟨i, h⟩ :: s.drop (i + 1) := by
        rw [List.drop_eq_getElem_cons h]
        rfl
      by_cases hc : s.get ⟨i, h⟩ = c
      · rw [if_pos hc, List.map_cons, List.map_nil, ih (i + 1)]
        by_cases hpre : t <+: s.drop (i + 1)
        · rw [if_pos hpre, if_pos (by rw [hdrop]; exact List.cons_prefix_cons.mpr ⟨hc.symm, hpre⟩)]
          simp only [List.flatten, List.append_nil]
          rw [show ((i + 1) + t.length = i + (c :: t).length) from by simp; omega]
          simp
        · rw [if_neg hpre, if_neg (fun hcons => hpre (by
            rw [hdrop] at hcons
            exact (List.cons_prefix_cons.mp hcons).2))]
          simp
      · rw [if_neg hc, List.map_nil]
        rw [if_neg (fun hcons => hc (by
          rw [hdrop] at hcons
          exact (List.cons_prefix_cons.mp hcons).1.symm))]
        simp
    · rw [dif_neg h]
      have hnil : s.drop i = [] := List.drop_eq_nil_of_le (Nat.le_of_not_lt h)
      rw [if_neg (fun hcons => by rw [hnil] at hcons; exact absurd (List.prefix_nil.mp hcons) (by simp))]
      simp

/-- A regex matches somewhere in the text exactly when some start position
at most the length of the text yields an end position. -/
theorem MatchString_iff (re : Regex) (s : String) :
    re.MatchString s = true ↔ ∃ i, i ≤ s.toList.length ∧ matchEnds s.toList re i ≠ [] := by
  unfold Regex.MatchString
  rw [List.any_eq_true]
  constructor
  · rintro ⟨i, hi, hne⟩
    rw [List.mem_range, Nat.lt_succ_iff] at hi
    refine ⟨i, hi, ?_⟩
    simpa using hne
  · rintro ⟨i, hi, hne⟩
    refine ⟨i, ?_, ?_⟩
    · rw [List.mem_range, Nat.lt_succ_iff]
      exact hi
    · simpa using hne

/-- End positions of the both-ends-anchored literal regex: only the whole
text, and only when it equals the word. -/
theorem anchored_matchEnds (l : List Char) (cs : List Char) (i : Nat) :
    matchEnds cs (.cat .bol (.cat (litRegex l) .eol)) i
      = if i = 0 ∧ l <+: cs ∧ l.length = cs.length then [cs.length] else [] := by
  by_cases hz : i = 0
  · subst hz
    by_cases hpre : l <+: cs
    · by_cases hlen : l.length = cs.length
      · simp [matchEnds, matchEnds_litRegex, hpre, hlen]
      · simp [matchEnds, matchEnds_litRegex, hpre, hlen]
    · simp [matchEnds, matchEnds_litRegex, hpre]
  · simp [matchEnds, hz]

/-- The both-ends-anchored literal regex performs a full-string match: it
matches the text exactly when the text equals the word. -/
theorem MatchString_anchored_lit (l : List Char) (s : String) :
    (Regex.cat .bol (.cat (litRegex l) .eol)).MatchString s = true ↔ s.toList = l := by
  rw [MatchString_iff]
  constructor
  · rintro ⟨i, _, hne⟩
    rw [anchored_matchEnds] at hne
    by_cases hcond : i = 0 ∧ l <+: s.toList ∧ l.length = s.toList.length
    · exact (hcond.2.1.eq_of_length hcond.2.2).symm
    · rw [if_neg hcond] at hne
      exact absurd rfl hne
  · intro h
    refine ⟨0, Nat.zero_le _, ?_⟩
    rw [anchored_matchEnds, if_pos ⟨rfl, h ▸ List.prefix_refl l, h ▸ rfl⟩]
    simp

/-- The bare literal regex performs unanchored substring matching: it
matches the text exactly when the text contains the word. -/
theorem MatchString_lit (l : List Char) (s : String) :
    (litRegex l).MatchString s = true ↔ l <:+: s.toList := by
  rw [MatchString_iff]
  constructor
  · rintro ⟨i, _, hne⟩
    rw [matchEnds_litRegex] at hne
    by_cases hpre : l <+: s.toList.drop i
    · obtain ⟨t, ht⟩ := hpre
      refine ⟨s.toList.take i, t, ?_⟩
      rw [List.append_assoc, ht, List.take_append_drop]
    · rw [if_neg hpre] at hne
      exact absurd rfl hne
  · rintro ⟨u, v, huv⟩
    refine ⟨u.length, ?_, ?_⟩
    · have hlen := congrArg List.length huv
      simp only [List.length_append] at hlen
      omega
    · have hdrop : s.toList.drop u.length = l ++ v := by
        rw [← huv, List.append_assoc]
        exact List.drop_left u (l ++ v)
      rw [matchEnds_litRegex, if_pos (by rw [hdrop]; exact ⟨v, rfl⟩)]
      simp

/-- C1 counterexample: the claim that strict mode performs a full-string
match for every permission expression fails for an expression with
top-level alternation: with expression `a|b` the strict pattern is
`^a|b$`, which (alternation binding loosest) is `(^a)|(b$)` and matches
the candidate identifier `xb`, so the strict policy allows `xb` although a
full-string match of `a|b` against `xb` fails. -/
theorem strict_full_match_counterexample :
    (NewNamespacePermittedRoleNamePolicy true (nsFinderWith "a|b")
        idResolver).IsAllowedAssumeRole ctx0 "xb" pod0 = (some .allowed, none) ∧
    specFullStringMatch "a|b" "xb" = false := by
  decide

/-- C1 amended: strict mode prepends `^` and appends `$` to the expression
before compilation; the both-ends-anchored literal regex matches exactly
the whole identifier while the bare literal regex matches exactly the
identifiers containing the word, and concretely expression `foo` under
strict matches identifier `foo` but neither `foobar` nor `xfoo`, while
non-strict matches all three.  (For expressions with top-level
alternation the strict pattern is not a full-string match, as the
counterexample shows.) -/
theorem strict_anchoring_amended :
    (∀ (p : NamespacePermittedRoleNamePolicy) (ctx : Ctx) (role : String) (pod : Pod)
      (rid : Identity) (ns : Namespace) (e : String),
      p.strict = true →
      p.resolver role = .ok rid →
      p.namespaces ctx pod.nsName = .ok ns →
      ns.annotationValue permittedAnnotationKey = e → e ≠ "" →
      p.IsAllowedAssumeRole ctx role pod
        = (match regexpCompile ("^" ++ e ++ "$") with
           | .error err => (none, some err)
           | .ok re =>
             if !(re.MatchString rid.ARN) then
               (some (.namespacePolicyForbidden e rid.ARN), none)
             else (some .allowed, none))) ∧
    (∀ (l : List Char) (s : String),
      (Regex.cat .bol (.cat (litRegex l) .eol)).MatchString s = true ↔ s.toList = l) ∧
    (∀ (l : List Char) (s : String),
      (litRegex l).MatchString s = true ↔ l <:+: s.toList) ∧
    ((NewNamespacePermittedRoleNamePolicy true (nsFinderWith "foo")
        idResolver).IsAllowedAssumeRole ctx0 "foo" pod0 = (some .allowed, none) ∧
      (NewNamespacePermittedRoleNamePolicy true (nsFinderWith "foo")
        idResolver).IsAllowedAssumeRole ctx0 "foobar" pod0
        = (some (.namespacePolicyForbidden "foo" "foobar"), none) ∧
      (NewNamespacePermittedRoleNamePolicy true (nsFinderWith "foo")
        idResolver).IsAllowedAssumeRole ctx0 "xfoo" pod0
        = (some (.namespacePolicyForbidden "foo" "xfoo"), none) ∧
      (NewNamespacePermittedRoleNamePolicy false (nsFinderWith "foo")
        idResolver).IsAllowedAssumeRole ctx0 "foo" pod0 = (some .allowed, none) ∧
      (NewNamespacePermittedRoleNamePolicy false (nsFinderWith "foo")
        idResolver).IsAllowedAssumeRole ctx0 "foobar" pod0 = (some .allowed, none) ∧
      (NewNamespacePermittedRoleNamePolicy false (nsFinderWith "foo")
        idResolver).IsAllowedAssumeRole ctx0 "xfoo" pod0 = (some .allowed, none)) := by
  refine ⟨?_, MatchString_anchored_lit, MatchString_lit, by decide⟩
  intro p ctx role pod rid ns e hs hr hn he hne
  subst he
  rcases hc : regexpCompile ("^" ++ ns.annotationValue permittedAnnotationKey ++ "$")
    with err | re
  · simp [NamespacePermittedRoleNamePolicy.IsAllowedAssumeRole, hr, hn, hne, hs, hc]
  · by_cases hm : re.MatchString rid.ARN = true <;>
      simp [NamespacePermittedRoleNamePolicy.IsAllowedAssumeRole, hr, hn, hne, hs, hc, hm]

/-- Witness for the amended C1: the strict policy with expression `foo` on
candidate `foobar` reduces to matching the compiled `^foo$`, and the two
general equivalences evaluated at the word `foo`. -/
theorem strict_anchoring_amended_witness :
    (NewNamespacePermittedRoleNamePolicy true (nsFinderWith "foo")
        idResolver).IsAllowedAssumeRole ctx0 "foobar" pod0
      = (match regexpCompile ("^" ++ "foo" ++ "$") with
         | .error err => (none, some err)
         | .ok re =>
           if !(re.MatchString "foobar") then
             (some (Decision.namespacePolicyForbidden "foo" "foobar"), none)
           else (some .allowed, none)) ∧
    ((Regex.cat .bol (.cat (litRegex ['f', 'o', 'o']) .eol)).MatchString "foo" = true ↔
      "foo".toList = ['f', 'o', 'o']) ∧
    ((litRegex ['f', 'o', 'o']).MatchString "xfoo" = true ↔
      ['f', 'o', 'o'] <:+: "xfoo".toList) :=
  ⟨strict_anchoring_amended.1 _ ctx0 "foobar" pod0 ⟨"foobar", "foobar"⟩
      ⟨[(permittedAnnotationKey, "foo")]⟩ "foo" rfl rfl rfl rfl (by decide),
    strict_anchoring_amended.2.1 ['f', 'o', 'o'] "foo",
    strict_anchoring_amended.2.2.1 ['f', 'o', 'o'] "xfoo"⟩

end Kiam
